import Mathlib

/-!
# Verification of the woeusb-go copy / cleanup core

Shallow embedding of the copy engine (`internal/copy/copy.go`), the size
scanners, the WIM-split pipeline, the mount lifecycle (`internal/mount/mount.go`),
the session cleanup (`internal/session/session.go`) and the human-readable size
formatters (`internal/filesystem`).

Modelling conventions:
* The filesystem visible to `filepath.Walk` is a tree (`Node`/`Entries`).
  An entry whose `lstat` fails is an `Entries.skip`; a directory whose
  `readDirNames` fails is `Node.dirFail`; non-regular, non-directory entries
  (symlinks, devices) are `Node.other`.  `filepath.Walk`'s traversal order and
  error propagation follow the Go standard library; none of the walk callbacks
  in this repository ever returns `SkipDir`/`SkipAll`, so those are not modelled.
* OS side effects (open/create/mkdir/unmount/...) are driven by environments of
  boolean oracles, and every function additionally returns the ordered trace of
  the OS calls it performed, so ordering claims can be stated.
* Go `int64` values are modelled as `Int` (no quantity in this code can
  overflow: sizes and byte counters stay far below `2^63`).
* Go error values are modelled as `Option String` / small inductives; the exact
  `fmt.Errorf` text is abbreviated but the data an error carries is kept.
-/

namespace WoeUSB

/-- `filepath.Rel(root, root ++ "/" ++ segments)` for paths produced by the walk:
the root itself is `"."`, everything below is the slash-joined segment list. -/
def relPath : List String → String
  | [] => "."
  | ps => String.intercalate "/" ps

/-- `filepath.Join(a, b)` for the joins this code performs (`b` is a clean
relative path produced by `filepath.Rel`). -/
def pathJoin (a b : String) : String :=
  if b = "." then a else a ++ "/" ++ b

/-- `filepath.Dir` for the clean relative paths handled by the pipeline. -/
def filepathDir (p : String) : String :=
  match (p.splitOn "/").dropLast with
  | [] => "."
  | segs => String.intercalate "/" segs

/-- ASCII case mapping (`strings.ToLower` restricted to ASCII, the only case
folding these paths exercise). -/
def charLower (c : Char) : Char :=
  if 65 ≤ c.toNat ∧ c.toNat ≤ 90 then Char.ofNat (c.toNat + 32) else c

/-- `strings.HasSuffix` on character sequences. -/
def hasSuffixChars (s suff : List Char) : Bool :=
  decide (suff.length ≤ s.length) && decide (s.drop (s.length - suff.length) = suff)

/-- `IsWIMFile`: `strings.ToLower(path)` then `strings.HasSuffix(lower, ".wim")`. -/
def IsWIMFile (path : String) : Bool :=
  hasSuffixChars (path.data.map charLower) ".wim".data

/-! ## The filesystem tree seen by `filepath.Walk` -/

mutual

/-- One filesystem object, as `filepath.Walk` observes it. -/
inductive Node : Type where
  /-- a regular file of the given size (`info.Mode().IsRegular()`) -/
  | file : Int → Node
  /-- a non-regular, non-directory entry (symlink, device, socket ...) -/
  | other : Node
  /-- a directory whose `readDirNames` fails: the walk callback receives the
  error, and the children are never visited -/
  | dirFail : Node
  /-- a readable directory with its ordered entries -/
  | dir : Entries → Node

/-- Ordered directory entries. -/
inductive Entries : Type where
  | nil : Entries
  /-- an entry whose `lstat` fails: the callback receives a `nil` info and the
  error -/
  | skip : String → Entries → Entries
  | cons : String → Node → Entries → Entries

end

/-- The `os.FileInfo` data the walk callbacks of this repository look at. -/
inductive Info : Type where
  | reg : Int → Info
  | directory : Info
  | other : Info

mutual

/-- `filepath.walk` (the recursive worker): threads a state `σ` through the
callback `f st segments info errFlag`, which returns the new state and the
callback's returned error.  Matches `path/filepath/path.go`, minus the
`SkipDir`/`SkipAll` handling that no callback here exercises. -/
def walkNode {σ ε : Type} (f : σ → List String → Option Info → Bool → σ × Option ε)
    (st : σ) (ps : List String) : Node → σ × Option ε
  | Node.file sz => f st ps (some (Info.reg sz)) false
  | Node.other => f st ps (some Info.other) false
  | Node.dirFail =>
      -- readDirNames failed: err1 := walkFn(path, info, err); return err1
      f st ps (some Info.directory) true
  | Node.dir es =>
      let r := f st ps (some Info.directory) false
      match r.2 with
      | some e => (r.1, some e)
      | none => walkEntries f r.1 ps es

/-- The loop over a readable directory's children. -/
def walkEntries {σ ε : Type} (f : σ → List String → Option Info → Bool → σ × Option ε)
    (st : σ) (ps : List String) : Entries → σ × Option ε
  | Entries.nil => (st, none)
  | Entries.skip name rest =>
      let r := f st (ps ++ [name]) none true
      match r.2 with
      | some e => (r.1, some e)
      | none => walkEntries f r.1 ps rest
  | Entries.cons name child rest =>
      let r := walkNode f st (ps ++ [name]) child
      match r.2 with
      | some e => (r.1, some e)
      | none => walkEntries f r.1 ps rest

end

/-- `filepath.Walk(root, f)`.  `root = none` models an `lstat` failure on the
root path itself: the callback is invoked once with a `nil` info and the error. -/
def filepathWalk {σ ε : Type} (f : σ → List String → Option Info → Bool → σ × Option ε)
    (st : σ) : Option Node → σ × Option ε
  | none => f st [] none true
  | some n => walkNode f st [] n

/-! ## Specification-side view of a tree: its accessible regular files -/

mutual

/-- The accessible regular files of a tree, in walk order, as
(root-relative path, size) pairs. -/
def regFiles (ps : List String) : Node → List (String × Int)
  | Node.file sz => [(relPath ps, sz)]
  | Node.other => []
  | Node.dirFail => []
  | Node.dir es => regFilesEntries ps es

/-- `regFiles` over directory entries. -/
def regFilesEntries (ps : List String) : Entries → List (String × Int)
  | Entries.nil => []
  | Entries.skip _ rest => regFilesEntries ps rest
  | Entries.cons name child rest =>
      regFiles (ps ++ [name]) child ++ regFilesEntries ps rest

end

/-- Accessible regular files of a walk root. -/
def rootRegFiles : Option Node → List (String × Int)
  | none => []
  | some n => regFiles [] n

/-- Total size of a list of (path, size) pairs. -/
def sizesOf (l : List (String × Int)) : Int :=
  (l.map Prod.snd).sum

/-! ## `internal/copy/copy.go`: constants and statistics -/

/-- `ChunkSize`: 1 MiB. -/
def ChunkSize : Nat := 1024 * 1024

/-- `LargeFileThreshold`: 5 MiB. -/
def LargeFileThreshold : Int := 5 * 1024 * 1024

/-- `FAT32MaxFileSize`: 4 GiB − 1 byte. -/
def FAT32MaxFileSize : Int := 4 * 1024 * 1024 * 1024 - 1

/-- `SplitWIMMaxSize` (MB). -/
def SplitWIMMaxSize : Int := 3800

/-- `CopyStats`. -/
structure CopyStats where
  TotalFiles : Int
  TotalBytes : Int
  CopiedFiles : Int
  CopiedBytes : Int
  CurrentFile : String
  Failed : List String
  deriving DecidableEq, Repr

/-- `&CopyStats{}`: the zero value. -/
def CopyStats.init : CopyStats :=
  { TotalFiles := 0, TotalBytes := 0, CopiedFiles := 0, CopiedBytes := 0
    CurrentFile := "", Failed := [] }

/-- Add to the `TotalFiles`/`TotalBytes` counters (what the size scanners do). -/
def CopyStats.addTotals (st : CopyStats) (files bytes : Int) : CopyStats :=
  { st with TotalFiles := st.TotalFiles + files, TotalBytes := st.TotalBytes + bytes }

/-- The walk callback of `calculateTotalSize`. -/
def calcSizeF (st : CopyStats) (_ps : List String) (info : Option Info) (err : Bool) :
    CopyStats × Option String :=
  if err then (st, none)  -- Skip files we can't access
  else
    match info with
    | some (Info.reg sz) => (st.addTotals 1 sz, none)
    | _ => (st, none)

/-- `calculateTotalSize`. -/
def calculateTotalSize (root : Option Node) : Except String CopyStats :=
  let r := filepathWalk calcSizeF CopyStats.init root
  match r.2 with
  | some e => Except.error e
  | none => Except.ok r.1

/-- The walk callback of `calculateTotalSizeExcluding` (`excludeMap` is
membership in the exclusion list). -/
def calcSizeExclF (excludeFiles : List String) (st : CopyStats) (ps : List String)
    (info : Option Info) (err : Bool) : CopyStats × Option String :=
  if err then (st, none)
  else if excludeFiles.contains (relPath ps) then (st, none)
  else
    match info with
    | some (Info.reg sz) => (st.addTotals 1 sz, none)
    | _ => (st, none)

/-- `calculateTotalSizeExcluding`. -/
def calculateTotalSizeExcluding (root : Option Node) (excludeFiles : List String) :
    Except String CopyStats :=
  let r := filepathWalk (calcSizeExclF excludeFiles) CopyStats.init root
  match r.2 with
  | some e => Except.error e
  | none => Except.ok r.1

/-- The walk callback of `FindLargeFiles`. -/
def findLargeF (acc : List (String × Int)) (ps : List String) (info : Option Info)
    (err : Bool) : List (String × Int) × Option String :=
  if err then (acc, none)
  else
    match info with
    | some (Info.reg sz) =>
        if sz > FAT32MaxFileSize then (acc ++ [(relPath ps, sz)], none) else (acc, none)
    | _ => (acc, none)

/-- `FindLargeFiles`: every accessible regular file strictly above
`FAT32MaxFileSize`, as (relative path, size), plus the walk's error. -/
def FindLargeFiles (root : Option Node) : List (String × Int) × Option String :=
  filepathWalk findLargeF [] root

/-! ## The chunked copy engine (`copyFile`) -/

/-- One result of `srcFile.Read(buffer)`: the byte count together with the
error value (`nil`, `io.EOF`, or another error). -/
inductive ReadStep : Type where
  | ok : Nat → ReadStep
  | eof : Nat → ReadStep
  | fail : Nat → ReadStep
  deriving DecidableEq, Repr

/-- The byte count a read returned. -/
def ReadStep.bytes : ReadStep → Nat
  | ReadStep.ok n => n
  | ReadStep.eof n => n
  | ReadStep.fail n => n

/-- Did the read return a non-`EOF` error? -/
def ReadStep.isFail : ReadStep → Bool
  | ReadStep.fail _ => true
  | _ => false

/-- Did the read return `io.EOF`? -/
def ReadStep.isEof : ReadStep → Bool
  | ReadStep.eof _ => true
  | _ => false

/-- The read results an intact source file of `size` bytes produces against a
1 MiB buffer: full chunks, a final short chunk, then (0, EOF) — the model's
exhausted list. -/
def stdReads (size : Nat) : List ReadStep :=
  if size = 0 then []
  else if size ≤ ChunkSize then [ReadStep.ok size]
  else ReadStep.ok ChunkSize :: stdReads (size - ChunkSize)
  termination_by size
  decreasing_by
    have h1 : 0 < ChunkSize := by decide
    omega

/-- A progress callback invocation: (bytesCopied, totalBytes, currentFile). -/
abbrev ProgressCall := Int × Int × String

/-- The chunked copy loop of `copyFile`, over the source's read results and a
per-write success oracle (`writes` exhausted means further writes succeed).
Returns the updated stats, the error returned, and the progress calls made.
The loop mirrors the Go order: `n == 0` breaks before the error check; a
non-EOF read error returns before the write; a failed write returns before the
counters advance; EOF breaks after reporting progress. -/
def chunkLoop (reads : List ReadStep) (writes : List Bool) (st : CopyStats) :
    CopyStats × Option String × List ProgressCall :=
  match reads with
  | [] => (st, none, [])
  | step :: rest =>
      if step.bytes = 0 then (st, none, [])
      else if step.isFail then (st, some "read error", [])
      else if writes.headD true = false then (st, some "write error", [])
      else
        let st1 := { st with CopiedBytes := st.CopiedBytes + (step.bytes : Int) }
        let call : ProgressCall := (st1.CopiedBytes, st1.TotalBytes, st1.CurrentFile)
        if step.isEof then (st1, none, [call])
        else
          let r := chunkLoop rest writes.tail st1
          (r.1, r.2.1, call :: r.2.2)

/-- Does `io.Copy(dstFile, srcFile)` return an error, for the given read
results and write oracle?  (`io.Copy` writes any bytes a read returned before
acting on the read's error; `io.EOF` is success.) -/
def ioCopyErr (reads : List ReadStep) (writes : List Bool) : Bool :=
  match reads with
  | [] => false
  | step :: rest =>
      if step.bytes ≠ 0 && writes.headD true = false then true
      else if step.isFail then true
      else if step.isEof then false
      else ioCopyErr rest (if step.bytes ≠ 0 then writes.tail else writes)

/-- The OS oracle driving the copy functions: per-path success of
`os.Open`/`os.Create`/`os.MkdirAll`, per-source-path read results, per-
destination-path write successes, and per-WIM-path success of the external
`wimlib-imagex split`. -/
structure Env where
  openOk : String → Bool
  createOk : String → Bool
  mkdirOk : String → Bool
  reads : String → List ReadStep
  writes : String → List Bool
  splitOk : String → Bool

/-- `copyFile(srcPath, dstPath, fileSize, stats, progressFn)`: the stats after
the call, the error returned, and the progress calls made (in order).
Small files (`fileSize < LargeFileThreshold`) go through one `io.Copy` and one
progress call crediting the whole `fileSize`; large files go through the
chunked loop. -/
def copyFile (env : Env) (srcPath dstPath : String) (fileSize : Int) (st : CopyStats) :
    CopyStats × Option String × List ProgressCall :=
  if env.openOk srcPath = false then (st, some "open error", [])
  else if env.createOk dstPath = false then (st, some "create error", [])
  else if fileSize < LargeFileThreshold then
    if ioCopyErr (env.reads srcPath) (env.writes dstPath) then (st, some "io copy error", [])
    else
      let st1 := { st with CopiedBytes := st.CopiedBytes + fileSize }
      (st1, none, [(st1.CopiedBytes, st1.TotalBytes, st1.CurrentFile)])
  else
    chunkLoop (env.reads srcPath) (env.writes dstPath) st

/-! ## The tree copy passes (`copyFiles`, `copyFilesExcluding`) -/

/-- An OS-visible action of a copy pass, in order. -/
inductive FSEvent : Type where
  | mkdir : String → FSEvent
  | progress : Int → Int → String → FSEvent
  | split : String → String → FSEvent
  deriving DecidableEq, Repr

/-- The error message `os.MkdirAll(dst, mode)` produces in the model. -/
def mkdirMsg (dst : String) : String := "mkdir " ++ dst

/-- The walk callback of `copyFiles`: inaccessible entries are recorded in
`Failed` and skipped; directories are recreated (a failure there is returned,
aborting the walk); regular files get a pre-copy progress call, then
`copyFile`; a failed copy is recorded in `Failed` and the walk continues. -/
def copyFilesF (env : Env) (srcMount dstMount : String)
    (st : CopyStats × List FSEvent) (ps : List String) (info : Option Info) (err : Bool) :
    (CopyStats × List FSEvent) × Option String :=
  if err then
    (({ st.1 with Failed := st.1.Failed ++ [relPath ps] }, st.2), none)
  else
    let rel := relPath ps
    let dstPath := pathJoin dstMount rel
    match info with
    | some Info.directory =>
        ((st.1, st.2 ++ [FSEvent.mkdir dstPath]),
          if env.mkdirOk dstPath then none else some (mkdirMsg dstPath))
    | some (Info.reg sz) =>
        let srcPath := pathJoin srcMount rel
        let st1 := { st.1 with CurrentFile := rel }
        let preCall := FSEvent.progress st1.CopiedBytes st1.TotalBytes rel
        let r := copyFile env srcPath dstPath sz st1
        let calls := r.2.2.map (fun c => FSEvent.progress c.1 c.2.1 c.2.2)
        match r.2.1 with
        | some _ =>
            (({ r.1 with Failed := r.1.Failed ++ [rel] }, st.2 ++ [preCall] ++ calls), none)
        | none =>
            (({ r.1 with CopiedFiles := r.1.CopiedFiles + 1 }, st.2 ++ [preCall] ++ calls), none)
    | _ => (st, none)

/-- `copyFiles(srcMount, dstMount, stats, progressFn)`. -/
def copyFiles (env : Env) (srcMount dstMount : String) (st : CopyStats)
    (root : Option Node) : (CopyStats × List FSEvent) × Option String :=
  filepathWalk (copyFilesF env srcMount dstMount) (st, []) root

/-- The walk callback of `copyFilesExcluding`: identical to `copyFiles` except
entries whose relative path is in the exclusion list are skipped (after the
error check, before anything else). -/
def copyFilesExclF (env : Env) (srcMount dstMount : String) (excludeFiles : List String)
    (st : CopyStats × List FSEvent) (ps : List String) (info : Option Info) (err : Bool) :
    (CopyStats × List FSEvent) × Option String :=
  if err then
    (({ st.1 with Failed := st.1.Failed ++ [relPath ps] }, st.2), none)
  else if excludeFiles.contains (relPath ps) then (st, none)
  else copyFilesF env srcMount dstMount st ps info false

/-- `copyFilesExcluding(srcMount, dstMount, excludeFiles, stats, progressFn)`. -/
def copyFilesExcluding (env : Env) (srcMount dstMount : String)
    (excludeFiles : List String) (st : CopyStats) (root : Option Node) :
    (CopyStats × List FSEvent) × Option String :=
  filepathWalk (copyFilesExclF env srcMount dstMount excludeFiles) (st, []) root

/-! ## The WIM-split pipeline (`CopyWindowsISOWithWIMSplit`) -/

/-- The pipeline's error, keeping the data each `fmt.Errorf` embeds
(`notWIM` carries the offending file's relative path and byte size; the
`%.1f GB` rendering is not modelled). -/
inductive PipeErr : Type where
  | scanFail : String → PipeErr
  | notWIM : String → Int → PipeErr
  | sizeFail : String → PipeErr
  | copyFail : String → PipeErr
  | mkdirFail : String → PipeErr
  | splitFail : String → PipeErr
  deriving DecidableEq, Repr

/-- The second pass of the pipeline: for each oversized WIM, ensure the
destination subdirectory exists, then run the external split; either failure
aborts. -/
def splitPass (env : Env) (srcMount dstMount : String) (lfs : List (String × Int))
    (tr : List FSEvent) : Option PipeErr × List FSEvent :=
  match lfs with
  | [] => (none, tr)
  | lf :: rest =>
      let srcWIM := pathJoin srcMount lf.1
      let dstDir := pathJoin dstMount (filepathDir lf.1)
      let tr1 := tr ++ [FSEvent.mkdir dstDir]
      if env.mkdirOk dstDir = false then (some (PipeErr.mkdirFail dstDir), tr1)
      else
        let tr2 := tr1 ++ [FSEvent.split srcWIM dstDir]
        if env.splitOk srcWIM = false then (some (PipeErr.splitFail lf.1), tr2)
        else splitPass env srcMount dstMount rest tr2

/-- `CopyWindowsISOWithWIMSplit(srcMount, dstMount, progressFn)`: the returned
error and the ordered trace of OS actions (mkdir / progress / split). -/
def CopyWindowsISOWithWIMSplit (env : Env) (srcMount dstMount : String)
    (root : Option Node) : Option PipeErr × List FSEvent :=
  let lr := FindLargeFiles root
  match lr.2 with
  | some e => (some (PipeErr.scanFail e), [])
  | none =>
      match lr.1.find? (fun lf => !IsWIMFile lf.1) with
      | some lf => (some (PipeErr.notWIM lf.1 lf.2), [])
      | none =>
          let excludeFiles := lr.1.map Prod.fst
          match calculateTotalSizeExcluding root excludeFiles with
          | Except.error e => (some (PipeErr.sizeFail e), [])
          | Except.ok stats =>
              let cr := copyFilesExcluding env srcMount dstMount excludeFiles stats root
              match cr.2 with
              | some e => (some (PipeErr.copyFail e), cr.1.2)
              | none => splitPass env srcMount dstMount lr.1 cr.1.2

/-! ## `internal/mount/mount.go`: the mount lifecycle -/

/-- One line of `/proc/mounts`. -/
structure MountInfo where
  Device : String
  Mountpoint : String
  Filesystem : String
  Options : String
  deriving DecidableEq, Repr

/-- The OS oracle for the mount module: the parsed `/proc/mounts` content
(`none` models a failure of `GetMountInfo`), and per-mountpoint success of the
unmount syscall, the `umount` command, the lazy `umount -l`, and
`os.RemoveAll`. -/
structure MountEnv where
  mountsInfo : Option (List MountInfo)
  sysUnmountOk : String → Bool
  umountOk : String → Bool
  umountLazyOk : String → Bool
  removeAllOk : String → Bool

/-- An OS action of the mount module, in order. -/
inductive MountEvent : Type where
  | sysUnmount : String → MountEvent
  | umount : String → MountEvent
  | umountLazy : String → MountEvent
  | removeAll : String → MountEvent
  deriving DecidableEq, Repr

/-- `IsMounted(path)`: whether the device or mountpoint appears in
`/proc/mounts` (by device equality, mountpoint equality, or device prefix),
the matching mountpoints, and the error. -/
def IsMounted (env : MountEnv) (path : String) : Option (Bool × List String) :=
  match env.mountsInfo with
  | none => none
  | some mounts =>
      let mountpoints := (mounts.filter
        (fun m => m.Device = path ∨ m.Mountpoint = path ∨ m.Device.startsWith path)).map
        MountInfo.Mountpoint
      some (mountpoints.length > 0, mountpoints)

/-- `Unmount(mountpoint)`: syscall first, then `umount`, then `umount -l`;
returns the error plus the attempts made. -/
def Unmount (env : MountEnv) (mountpoint : String) : Option String × List MountEvent :=
  if env.sysUnmountOk mountpoint then (none, [MountEvent.sysUnmount mountpoint])
  else if env.umountOk mountpoint then
    (none, [MountEvent.sysUnmount mountpoint, MountEvent.umount mountpoint])
  else if env.umountLazyOk mountpoint then
    (none, [MountEvent.sysUnmount mountpoint, MountEvent.umount mountpoint,
      MountEvent.umountLazy mountpoint])
  else
    (some ("failed to unmount " ++ mountpoint),
      [MountEvent.sysUnmount mountpoint, MountEvent.umount mountpoint,
        MountEvent.umountLazy mountpoint])

/-- `CleanupMountpoint(mountpoint)`: check mount status (erroring out if the
check fails), unmount when mounted (a failed unmount is returned immediately),
then remove the directory. -/
def CleanupMountpoint (env : MountEnv) (mountpoint : String) :
    Option String × List MountEvent :=
  match IsMounted env mountpoint with
  | none => (some "failed to check mount status", [])
  | some m =>
      let afterUnmount : Option String × List MountEvent :=
        if m.1 then Unmount env mountpoint else (none, [])
      match afterUnmount.1 with
      | some e => (some ("failed to unmount: " ++ e), afterUnmount.2)
      | none =>
          let tr := afterUnmount.2 ++ [MountEvent.removeAll mountpoint]
          if env.removeAllOk mountpoint then (none, tr)
          else (some ("failed to remove mountpoint " ++ mountpoint), tr)

/-! ## `internal/session/session.go`: the session and its cleanup -/

/-- `session.Session`. -/
structure Session where
  Source : String
  Target : String
  TargetDevice : String
  TargetPartition : String
  Mode : String
  Filesystem : String
  Label : String
  SourceMount : String
  TargetMount : String
  TempDir : String
  SkipGRUB : Bool
  SetBootFlag : Bool
  Verbose : Bool
  NoColor : Bool
  deriving DecidableEq, Repr

/-- The OS oracle for `Session.Cleanup`: per-path success of
`syscall.Unmount(path, 0)` and `os.RemoveAll(path)` (the result of the
best-effort `os.Remove` after a successful unmount is discarded by the code,
so it needs no oracle). -/
structure SessEnv where
  unmountOk : String → Bool
  removeAllOk : String → Bool

/-- An OS action of `Session.Cleanup`, in order. -/
inductive SessEvent : Type where
  | unmount : String → SessEvent
  | remove : String → SessEvent
  | removeAll : String → SessEvent
  deriving DecidableEq, Repr

/-- The release attempts among a cleanup trace: the unmount and `RemoveAll`
calls (the best-effort `os.Remove` of an unmounted mountpoint directory is not
a release of its own). -/
def releaseAttempts (tr : List SessEvent) : List SessEvent :=
  tr.filter (fun e => match e with
    | SessEvent.remove _ => false
    | _ => true)

/-- `Session.Cleanup()`: the session afterwards, the aggregated error list
(`nil` when empty), and the ordered OS actions.  Source mount, then target
mount, then temp directory; a mount field is cleared only in the successful
unmount branch, while `TempDir` is cleared unconditionally after its removal
attempt. -/
def Session.Cleanup (env : SessEnv) (s : Session) :
    Session × Option (List String) × List SessEvent :=
  let r1 : Session × List String × List SessEvent :=
    if s.SourceMount = "" then (s, [], [])
    else if env.unmountOk s.SourceMount then
      ({ s with SourceMount := "" }, [],
        [SessEvent.unmount s.SourceMount, SessEvent.remove s.SourceMount])
    else (s, ["unmount source"], [SessEvent.unmount s.SourceMount])
  let s1 := r1.1
  let r2 : Session × List String × List SessEvent :=
    if s1.TargetMount = "" then (s1, [], [])
    else if env.unmountOk s1.TargetMount then
      ({ s1 with TargetMount := "" }, [],
        [SessEvent.unmount s1.TargetMount, SessEvent.remove s1.TargetMount])
    else (s1, ["unmount target"], [SessEvent.unmount s1.TargetMount])
  let s2 := r2.1
  let r3 : Session × List String × List SessEvent :=
    if s2.TempDir = "" then (s2, [], [])
    else if env.removeAllOk s2.TempDir then
      ({ s2 with TempDir := "" }, [], [SessEvent.removeAll s2.TempDir])
    else ({ s2 with TempDir := "" }, ["remove temp dir"], [SessEvent.removeAll s2.TempDir])
  let errs := r1.2.1 ++ r2.2.1 ++ r3.2.1
  (r3.1, (if errs = [] then none else some errs), r1.2.2 ++ r2.2.2 ++ r3.2.2)

/-! ## The human-readable size formatters -/

/-- The unit-search loop shared by `formatBytes` and `FormatSizeHuman`:
`div, exp := 1024, 0; for n := bytes/1024; n >= 1024; n /= 1024 { div *= 1024; exp++ }`.
Returns the final `(div, exp)`. -/
def formatLoop (n div exp : Nat) : Nat × Nat :=
  if h : n ≥ 1024 then formatLoop (n / 1024) (div * 1024) (exp + 1) else (div, exp)
  termination_by n
  decreasing_by
    exact Nat.div_lt_self (by omega) (by omega)

/-- The unit-table index the formatters compute for a byte count. -/
def formatIndex (bytes : Int) : Nat :=
  (formatLoop (bytes.toNat / 1024) 1024 0).2

/-- The `%.1f` rendering of `float64(bytes)/float64(div)` is floating-point
and outside this embedding; the quotient pair is rendered verbatim instead.
No claim depends on the digits. -/
def floatText (bytes div : Int) : String :=
  toString bytes ++ "/" ++ toString div

/-- `formatBytes` (package `copy`): `none` models the index-out-of-range panic
on the four-entry unit table. -/
def formatBytes (bytes : Int) : Option String :=
  if bytes < 1024 then some (toString bytes ++ " B")
  else
    let p := formatLoop (bytes.toNat / 1024) 1024 0
    let units := ["KB", "MB", "GB", "TB"]
    match units[p.2]? with
    | some u => some (floatText bytes (Int.ofNat p.1) ++ " " ++ u)
    | none => none

/-- `FormatSizeHuman` (package `filesystem`): textually identical to
`formatBytes`. -/
def FormatSizeHuman (bytes : Int) : Option String :=
  if bytes < 1024 then some (toString bytes ++ " B")
  else
    let p := formatLoop (bytes.toNat / 1024) 1024 0
    let units := ["KB", "MB", "GB", "TB"]
    match units[p.2]? with
    | some u => some (floatText bytes (Int.ofNat p.1) ++ " " ++ u)
    | none => none

/-! ## Characterization of the size scanners and the classifier -/

theorem sizesOf_nil : sizesOf [] = 0 := rfl

theorem sizesOf_cons (x : String × Int) (l : List (String × Int)) :
    sizesOf (x :: l) = x.2 + sizesOf l := by
  simp [sizesOf]

theorem sizesOf_append (l1 l2 : List (String × Int)) :
    sizesOf (l1 ++ l2) = sizesOf l1 + sizesOf l2 := by
  simp [sizesOf]

theorem addTotals_zero (st : CopyStats) : st.addTotals 0 0 = st := by
  simp [CopyStats.addTotals]

theorem addTotals_addTotals (st : CopyStats) (a b c d : Int) :
    (st.addTotals a b).addTotals c d = st.addTotals (a + c) (b + d) := by
  simp [CopyStats.addTotals, add_assoc]

mutual

theorem walkNode_calcSize (st : CopyStats) (ps : List String) (n : Node) :
    walkNode calcSizeF st ps n =
      (st.addTotals ((regFiles ps n).length : Int) (sizesOf (regFiles ps n)), none) := by
  cases n with
  | file sz =>
      simp [walkNode, calcSizeF, regFiles, sizesOf, CopyStats.addTotals]
  | other =>
      simp [walkNode, calcSizeF, regFiles, sizesOf_nil, addTotals_zero]
  | dirFail =>
      simp [walkNode, calcSizeF, regFiles, sizesOf_nil, addTotals_zero]
  | dir es =>
      simp only [walkNode, calcSizeF, if_neg Bool.false_ne_true, regFiles]
      exact walkEntries_calcSize st ps es

theorem walkEntries_calcSize (st : CopyStats) (ps : List String) (es : Entries) :
    walkEntries calcSizeF st ps es =
      (st.addTotals ((regFilesEntries ps es).length : Int) (sizesOf (regFilesEntries ps es)),
        none) := by
  cases es with
  | nil =>
      simp [walkEntries, regFilesEntries, sizesOf_nil, addTotals_zero]
  | skip name rest =>
      simp only [walkEntries, calcSizeF, if_pos rfl, regFilesEntries]
      exact walkEntries_calcSize st ps rest
  | cons name child rest =>
      simp only [walkEntries, walkNode_calcSize st (ps ++ [name]) child, regFilesEntries]
      rw [walkEntries_calcSize]
      simp [addTotals_addTotals, sizesOf_append]

end

/-- `calculateTotalSize` always succeeds, and its totals are the count and byte
sum of the accessible regular files. -/
theorem calculateTotalSize_spec (root : Option Node) :
    calculateTotalSize root =
      Except.ok (CopyStats.init.addTotals ((rootRegFiles root).length : Int)
        (sizesOf (rootRegFiles root))) := by
  cases root with
  | none => simp [calculateTotalSize, filepathWalk, calcSizeF, rootRegFiles, sizesOf_nil, addTotals_zero]
  | some n => simp [calculateTotalSize, filepathWalk, walkNode_calcSize, rootRegFiles]

/-- The regular files an exclusion list lets through. -/
def keptBy (excludeFiles : List String) (l : List (String × Int)) : List (String × Int) :=
  l.filter (fun x => !excludeFiles.contains x.1)

/-- The regular files an exclusion list removes. -/
def droppedBy (excludeFiles : List String) (l : List (String × Int)) : List (String × Int) :=
  l.filter (fun x => excludeFiles.contains x.1)

mutual

theorem walkNode_calcSizeExcl (S : List String) (st : CopyStats) (ps : List String) (n : Node) :
    walkNode (calcSizeExclF S) st ps n =
      (st.addTotals ((keptBy S (regFiles ps n)).length : Int)
        (sizesOf (keptBy S (regFiles ps n))), none) := by
  cases n with
  | file sz =>
      by_cases h : relPath ps ∈ S
      · simp [walkNode, calcSizeExclF, h, regFiles, keptBy, sizesOf_nil, addTotals_zero]
      · simp [walkNode, calcSizeExclF, h, regFiles, keptBy, sizesOf, CopyStats.addTotals]
  | other =>
      by_cases h : relPath ps ∈ S <;>
        simp [walkNode, calcSizeExclF, h, regFiles, keptBy, sizesOf_nil, addTotals_zero]
  | dirFail =>
      simp [walkNode, calcSizeExclF, regFiles, keptBy, sizesOf_nil, addTotals_zero]
  | dir es =>
      have he := walkEntries_calcSizeExcl S st ps es
      by_cases h : relPath ps ∈ S <;>
        simpa [walkNode, calcSizeExclF, h, regFiles] using he

theorem walkEntries_calcSizeExcl (S : List String) (st : CopyStats) (ps : List String)
    (es : Entries) :
    walkEntries (calcSizeExclF S) st ps es =
      (st.addTotals ((keptBy S (regFilesEntries ps es)).length : Int)
        (sizesOf (keptBy S (regFilesEntries ps es))), none) := by
  cases es with
  | nil =>
      simp [walkEntries, regFilesEntries, keptBy, sizesOf_nil, addTotals_zero]
  | skip name rest =>
      simp only [walkEntries, calcSizeExclF, if_pos rfl, regFilesEntries]
      exact walkEntries_calcSizeExcl S st ps rest
  | cons name child rest =>
      simp only [walkEntries, walkNode_calcSizeExcl S st (ps ++ [name]) child, regFilesEntries]
      rw [walkEntries_calcSizeExcl]
      simp [keptBy, addTotals_addTotals, sizesOf_append, List.filter_append]

end

/-- `calculateTotalSizeExcluding` always succeeds, and its totals cover exactly
the accessible regular files whose relative path is not excluded. -/
theorem calculateTotalSizeExcluding_spec (root : Option Node) (S : List String) :
    calculateTotalSizeExcluding root S =
      Except.ok (CopyStats.init.addTotals ((keptBy S (rootRegFiles root)).length : Int)
        (sizesOf (keptBy S (rootRegFiles root)))) := by
  cases root with
  | none =>
      simp [calculateTotalSizeExcluding, filepathWalk, calcSizeExclF, rootRegFiles, keptBy,
        sizesOf_nil, addTotals_zero]
  | some n =>
      simp [calculateTotalSizeExcluding, filepathWalk, walkNode_calcSizeExcl, rootRegFiles]

/-- The oversized files of a list. -/
def oversizedOf (l : List (String × Int)) : List (String × Int) :=
  l.filter (fun x => FAT32MaxFileSize < x.2)

mutual

theorem walkNode_findLarge (acc : List (String × Int)) (ps : List String) (n : Node) :
    walkNode findLargeF acc ps n = (acc ++ oversizedOf (regFiles ps n), none) := by
  cases n with
  | file sz =>
      by_cases h : FAT32MaxFileSize < sz
      · simp [walkNode, findLargeF, regFiles, oversizedOf, h]
      · simp [walkNode, findLargeF, regFiles, oversizedOf, h, not_lt.mp h]
  | other => simp [walkNode, findLargeF, regFiles, oversizedOf]
  | dirFail => simp [walkNode, findLargeF, regFiles, oversizedOf]
  | dir es =>
      simp only [walkNode, findLargeF, if_neg Bool.false_ne_true, regFiles]
      exact walkEntries_findLarge acc ps es

theorem walkEntries_findLarge (acc : List (String × Int)) (ps : List String) (es : Entries) :
    walkEntries findLargeF acc ps es =
      (acc ++ oversizedOf (regFilesEntries ps es), none) := by
  cases es with
  | nil => simp [walkEntries, regFilesEntries, oversizedOf]
  | skip name rest =>
      simp only [walkEntries, findLargeF, if_pos rfl, regFilesEntries]
      exact walkEntries_findLarge acc ps rest
  | cons name child rest =>
      simp only [walkEntries, walkNode_findLarge acc (ps ++ [name]) child, regFilesEntries]
      rw [walkEntries_findLarge]
      simp [oversizedOf, List.filter_append]

end

/-- `FindLargeFiles` returns, with a `nil` error, exactly the accessible
regular files strictly above the FAT32 limit, in walk order. -/
theorem FindLargeFiles_spec (root : Option Node) :
    FindLargeFiles root = (oversizedOf (rootRegFiles root), none) := by
  cases root with
  | none => simp [FindLargeFiles, filepathWalk, findLargeF, rootRegFiles, oversizedOf]
  | some n =>
      simp [FindLargeFiles, filepathWalk, walkNode_findLarge, rootRegFiles]

theorem keptBy_length_add (S : List String) (l : List (String × Int)) :
    (keptBy S l).length + (droppedBy S l).length = l.length := by
  induction l with
  | nil => simp [keptBy, droppedBy]
  | cons x l ih =>
      by_cases h : x.1 ∈ S <;>
        · simp only [keptBy, droppedBy, List.filter_cons] at ih ⊢
          simp [h] at ih ⊢
          omega

theorem sizesOf_split (S : List String) (l : List (String × Int)) :
    sizesOf (keptBy S l) + sizesOf (droppedBy S l) = sizesOf l := by
  induction l with
  | nil => simp [keptBy, droppedBy, sizesOf_nil]
  | cons x l ih =>
      by_cases h : x.1 ∈ S <;>
        · simp only [keptBy, droppedBy, List.filter_cons] at ih ⊢
          simp [h, sizesOf_cons] at ih ⊢
          omega

/-- C2 counterexample: a failure to open/read the root directory itself does
NOT yield a non-nil error from `calculateTotalSize` — whether the root's
`lstat` fails (left) or the root directory's read fails (right), the scan
returns zeroed statistics and a `nil` error. -/
theorem c2_counterexample :
    calculateTotalSize none = Except.ok CopyStats.init ∧
    calculateTotalSize (some Node.dirFail) = Except.ok CopyStats.init := by
  constructor <;> rfl

/-- C2 (amended): the size scanner never returns an error: a failure to
open/read the root itself is silently skipped exactly like a per-entry
failure, and the returned totals are the count and byte sum of precisely the
accessible regular files (failing entries contribute nothing). -/
theorem c2_scan_error_suppression (root : Option Node) :
    calculateTotalSize root =
      Except.ok (CopyStats.init.addTotals ((rootRegFiles root).length : Int)
        (sizesOf (rootRegFiles root))) :=
  calculateTotalSize_spec root

/-- C8: `FindLargeFiles` reports, with a `nil` error, exactly the accessible
regular files whose size strictly exceeds 4294967295 bytes, each with its
relative path and size; at the boundary, a 4294967295-byte file is not
reported and a 4294967296-byte file is. -/
theorem c8_classifier_boundary :
    FAT32MaxFileSize = 4294967295 ∧
    (∀ root : Option Node, FindLargeFiles root = (oversizedOf (rootRegFiles root), none)) ∧
    (∀ (root : Option Node) (p : String × Int),
      p ∈ (FindLargeFiles root).1 ↔ p ∈ rootRegFiles root ∧ (4294967295 : Int) < p.2) ∧
    FindLargeFiles (some (Node.dir (Entries.cons "big.bin" (Node.file 4294967295) Entries.nil)))
      = ([], none) ∧
    FindLargeFiles (some (Node.dir (Entries.cons "big.bin" (Node.file 4294967296) Entries.nil)))
      = ([("big.bin", 4294967296)], none) := by
  refine ⟨by norm_num [FAT32MaxFileSize], FindLargeFiles_spec, ?_, by rfl, by rfl⟩
  intro root p
  rw [FindLargeFiles_spec]
  simp [oversizedOf, List.mem_filter, FAT32MaxFileSize]

/-- C9: for every tree and exclusion set `S`, the excluding scan succeeds and
its totals equal the full-tree totals minus the count and summed sizes of
exactly those accessible regular files whose root-relative path is in `S`. -/
theorem c9_exclusion_scan (root : Option Node) (S : List String) :
    ∃ ex full : CopyStats,
      calculateTotalSizeExcluding root S = Except.ok ex ∧
      calculateTotalSize root = Except.ok full ∧
      ex.TotalFiles = full.TotalFiles - ((droppedBy S (rootRegFiles root)).length : Int) ∧
      ex.TotalBytes = full.TotalBytes - sizesOf (droppedBy S (rootRegFiles root)) := by
  refine ⟨_, _, calculateTotalSizeExcluding_spec root S, calculateTotalSize_spec root, ?_, ?_⟩
  · have h := keptBy_length_add S (rootRegFiles root)
    simp only [CopyStats.addTotals]
    omega
  · have h := sizesOf_split S (rootRegFiles root)
    simp only [CopyStats.addTotals]
    omega

/-! ## Bounds on the formatters' unit-table index -/

theorem formatLoop_le (n : Nat) : ∀ div exp : Nat, exp ≤ (formatLoop n div exp).2 := by
  induction n using Nat.strong_induction_on with
  | _ n ih =>
      intro div exp
      rw [formatLoop]
      split
      · next h =>
          exact le_trans (Nat.le_succ exp)
            (ih (n / 1024) (Nat.div_lt_self (by omega) (by omega)) _ _)
      · exact le_refl exp

theorem formatLoop_upper (k : Nat) :
    ∀ n div exp : Nat, n < 1024 ^ (k + 1) → (formatLoop n div exp).2 ≤ exp + k := by
  induction k with
  | zero =>
      intro n div exp hn
      rw [formatLoop]
      split
      · next h => omega
      · omega
  | succ k ih =>
      intro n div exp hn
      rw [formatLoop]
      split
      · next h =>
          have hdiv : n / 1024 < 1024 ^ (k + 1) := by
            rw [Nat.div_lt_iff_lt_mul (by omega : 0 < 1024)]
            calc n < 1024 ^ (k + 2) := hn
              _ = 1024 ^ (k + 1) * 1024 := by ring
          have := ih (n / 1024) (div * 1024) (exp + 1) hdiv
          omega
      · omega

theorem formatLoop_lower (k : Nat) :
    ∀ n div exp : Nat, 1024 ^ k ≤ n → exp + k ≤ (formatLoop n div exp).2 := by
  induction k with
  | zero =>
      intro n div exp _
      have := formatLoop_le n div exp
      omega
  | succ k ih =>
      intro n div exp hn
      have h1024 : 1024 ≤ n := by
        calc (1024 : Nat) = 1024 ^ 1 := by ring
          _ ≤ 1024 ^ (k + 1) := Nat.pow_le_pow_right (by omega) (by omega)
          _ ≤ n := hn
      rw [formatLoop]
      split
      · next h =>
          have hdiv : 1024 ^ k ≤ n / 1024 := by
            rw [Nat.le_div_iff_mul_le (by omega : 0 < 1024)]
            calc 1024 ^ k * 1024 = 1024 ^ (k + 1) := by ring
              _ ≤ n := hn
          have := ih (n / 1024) (div * 1024) (exp + 1) hdiv
          omega
      · next h => omega

/-- C10: both size formatters index their four-entry unit table in bounds iff
the byte count is below 1024^5: for any non-negative input below 1 PiB the
computed index is at most 3 and a string is returned, while from 1024^5 on
the index is at least 4 and the lookup runs past the end of the table (the
`none` that models the Go index-out-of-range panic). -/
theorem c10_format_unit_table (b : Int) (h : 0 ≤ b) :
    (b < (1024 : Int) ^ 5 →
      formatIndex b ≤ 3 ∧ (formatBytes b).isSome ∧ (FormatSizeHuman b).isSome) ∧
    ((1024 : Int) ^ 5 ≤ b →
      4 ≤ formatIndex b ∧ formatBytes b = none ∧ FormatSizeHuman b = none) := by
  constructor
  · intro hb
    have hn : b.toNat < 1024 ^ 5 := by
      have : ((1024 : Int) ^ 5) = ((1024 ^ 5 : Nat) : Int) := by push_cast
      omega
    have hdiv : b.toNat / 1024 < 1024 ^ (3 + 1) := by
      rw [Nat.div_lt_iff_lt_mul (by omega : 0 < 1024)]
      calc b.toNat < 1024 ^ 5 := hn
        _ = 1024 ^ (3 + 1) * 1024 := by ring
    have hidx : formatIndex b ≤ 3 := by
      have := formatLoop_upper 3 (b.toNat / 1024) 1024 0 hdiv
      simpa [formatIndex] using this
    refine ⟨hidx, ?_, ?_⟩
    · by_cases hsmall : b < 1024
      · simp [formatBytes, hsmall]
      · have hlt : (formatLoop (b.toNat / 1024) 1024 0).2 < 4 := by
          have : formatIndex b = (formatLoop (b.toNat / 1024) 1024 0).2 := rfl
          omega
        obtain ⟨u, hu⟩ : ∃ u, (["KB", "MB", "GB", "TB"])[(formatLoop (b.toNat / 1024) 1024 0).2]?
            = some u := ⟨_, List.getElem?_eq_getElem (by exact hlt)⟩
        simp [formatBytes, hsmall, hu]
    · by_cases hsmall : b < 1024
      · simp [FormatSizeHuman, hsmall]
      · have hlt : (formatLoop (b.toNat / 1024) 1024 0).2 < 4 := by
          have : formatIndex b = (formatLoop (b.toNat / 1024) 1024 0).2 := rfl
          omega
        obtain ⟨u, hu⟩ : ∃ u, (["KB", "MB", "GB", "TB"])[(formatLoop (b.toNat / 1024) 1024 0).2]?
            = some u := ⟨_, List.getElem?_eq_getElem (by exact hlt)⟩
        simp [FormatSizeHuman, hsmall, hu]
  · intro hb
    have hn : 1024 ^ 5 ≤ b.toNat := by
      have : ((1024 : Int) ^ 5) = ((1024 ^ 5 : Nat) : Int) := by push_cast
      omega
    have hdiv : 1024 ^ 4 ≤ b.toNat / 1024 := by
      rw [Nat.le_div_iff_mul_le (by omega : 0 < 1024)]
      calc 1024 ^ 4 * 1024 = 1024 ^ 5 := by ring
        _ ≤ b.toNat := hn
    have hidx : 4 ≤ formatIndex b := by
      have := formatLoop_lower 4 (b.toNat / 1024) 1024 0 hdiv
      simpa [formatIndex] using this
    have hsmall : ¬ b < 1024 := by
      have : ((1024 : Int) ^ 5) = 1125899906842624 := by norm_num
      omega
    have hnone : (["KB", "MB", "GB", "TB"])[(formatLoop (b.toNat / 1024) 1024 0).2]? = none := by
      have hfi : formatIndex b = (formatLoop (b.toNat / 1024) 1024 0).2 := rfl
      exact List.getElem?_eq_none_iff.mpr (by simp only [List.length_cons, List.length_nil]; omega)
    exact ⟨hidx, by simp [formatBytes, hsmall, hnone], by simp [FormatSizeHuman, hsmall, hnone]⟩

/-- Witness for C10 at the concrete input 2048 bytes. -/
theorem c10_format_unit_table_witness :
    (0 : Int) ≤ 2048 ∧
    (((2048 : Int) < (1024 : Int) ^ 5 →
      formatIndex 2048 ≤ 3 ∧ (formatBytes 2048).isSome ∧ (FormatSizeHuman 2048).isSome) ∧
    ((1024 : Int) ^ 5 ≤ (2048 : Int) →
      4 ≤ formatIndex 2048 ∧ formatBytes 2048 = none ∧ FormatSizeHuman 2048 = none)) :=
  ⟨by norm_num, c10_format_unit_table 2048 (by norm_num)⟩

/-! ## Session cleanup: field clearing (C1) and release order (C5) -/

/-- A session holding all three resources. -/
def sessDemo : Session :=
  { Source := "/home/u/win.iso", Target := "/dev/sdb", TargetDevice := "/dev/sdb",
    TargetPartition := "/dev/sdb1", Mode := "device", Filesystem := "FAT",
    Label := "WINUSB", SourceMount := "/mnt/src", TargetMount := "/mnt/tgt",
    TempDir := "/tmp/woe", SkipGRUB := false, SetBootFlag := false,
    Verbose := false, NoColor := false }

/-- An OS oracle under which every unmount and removal fails. -/
def sessEnvFail : SessEnv :=
  { unmountOk := fun _ => false, removeAllOk := fun _ => false }

/-- An OS oracle under which every unmount and removal succeeds. -/
def sessEnvOK : SessEnv :=
  { unmountOk := fun _ => true, removeAllOk := fun _ => true }

/-- C1 counterexample: when the unmounts fail, `Cleanup` returns with the two
mount fields still holding their paths — the field clearing sits in the
successful-unmount branch only, so the fields are NOT cleared regardless of
outcome. -/
theorem c1_counterexample :
    (Session.Cleanup sessEnvFail sessDemo).1.SourceMount = "/mnt/src" ∧
    (Session.Cleanup sessEnvFail sessDemo).1.TargetMount = "/mnt/tgt" ∧
    ¬ (Session.Cleanup sessEnvFail sessDemo).1.SourceMount = "" ∧
    (Session.Cleanup sessEnvFail sessDemo).2.1 ≠ none := by
  refine ⟨rfl, rfl, by decide, by decide⟩

/-- C1 (amended): after `Cleanup()` returns, `TempDir` is always cleared
regardless of the removal's outcome, but `SourceMount` (resp. `TargetMount`)
is cleared iff it was already empty or its unmount succeeded — on unmount
failure the field keeps pointing at the mountpoint. -/
theorem c1_cleanup_field_clearing (env : SessEnv) (s : Session) :
    (Session.Cleanup env s).1.TempDir = "" ∧
    ((Session.Cleanup env s).1.SourceMount = "" ↔
      (s.SourceMount = "" ∨ env.unmountOk s.SourceMount = true)) ∧
    ((Session.Cleanup env s).1.TargetMount = "" ↔
      (s.TargetMount = "" ∨ env.unmountOk s.TargetMount = true)) := by
  by_cases h1 : s.SourceMount = "" <;> by_cases h2 : env.unmountOk s.SourceMount = true <;>
    by_cases h3 : s.TargetMount = "" <;> by_cases h4 : env.unmountOk s.TargetMount = true <;>
      by_cases h5 : s.TempDir = "" <;> by_cases h6 : env.removeAllOk s.TempDir = true <;>
        simp [Session.Cleanup, h1, h2, h3, h4, h5, h6]

/-- C5 counterexample: with every resource held and every release succeeding,
the first release action of `Cleanup` is the unmount of the SOURCE mount, not
of the target mount — the release order is source, target, temp directory. -/
theorem c5_counterexample :
    (Session.Cleanup sessEnvOK sessDemo).2.2 =
      [SessEvent.unmount "/mnt/src", SessEvent.remove "/mnt/src",
        SessEvent.unmount "/mnt/tgt", SessEvent.remove "/mnt/tgt",
        SessEvent.removeAll "/tmp/woe"] ∧
    (Session.Cleanup sessEnvOK sessDemo).2.2.head? ≠
      some (SessEvent.unmount sessDemo.TargetMount) := by
  refine ⟨rfl, by decide⟩

/-- C5 (amended): with all three resources held, `Cleanup` attempts the
releases in the order source mount, target mount, temp directory; every
release is attempted regardless of earlier failures, and the returned error
aggregates exactly the failed releases (`nil` iff all three succeeded). -/
theorem c5_cleanup_order (env : SessEnv) (s : Session)
    (h1 : s.SourceMount ≠ "") (h2 : s.TargetMount ≠ "") (h3 : s.TempDir ≠ "") :
    releaseAttempts (Session.Cleanup env s).2.2 =
      [SessEvent.unmount s.SourceMount, SessEvent.unmount s.TargetMount,
        SessEvent.removeAll s.TempDir] ∧
    ((Session.Cleanup env s).2.1 = none ↔
      (env.unmountOk s.SourceMount = true ∧ env.unmountOk s.TargetMount = true ∧
        env.removeAllOk s.TempDir = true)) ∧
    (∀ errs, (Session.Cleanup env s).2.1 = some errs →
      errs = (if env.unmountOk s.SourceMount then [] else ["unmount source"]) ++
        (if env.unmountOk s.TargetMount then [] else ["unmount target"]) ++
        (if env.removeAllOk s.TempDir then [] else ["remove temp dir"])) := by
  by_cases h4 : env.unmountOk s.SourceMount = true <;>
    by_cases h5 : env.unmountOk s.TargetMount = true <;>
      by_cases h6 : env.removeAllOk s.TempDir = true <;>
        simp [Session.Cleanup, releaseAttempts, h1, h2, h3, h4, h5, h6]

/-- Witness for C5 at a concrete session and oracle. -/
theorem c5_cleanup_order_witness :
    releaseAttempts (Session.Cleanup sessEnvOK sessDemo).2.2 =
      [SessEvent.unmount sessDemo.SourceMount, SessEvent.unmount sessDemo.TargetMount,
        SessEvent.removeAll sessDemo.TempDir] ∧
    ((Session.Cleanup sessEnvOK sessDemo).2.1 = none ↔
      (sessEnvOK.unmountOk sessDemo.SourceMount = true ∧
        sessEnvOK.unmountOk sessDemo.TargetMount = true ∧
        sessEnvOK.removeAllOk sessDemo.TempDir = true)) ∧
    (∀ errs, (Session.Cleanup sessEnvOK sessDemo).2.1 = some errs →
      errs = (if sessEnvOK.unmountOk sessDemo.SourceMount then [] else ["unmount source"]) ++
        (if sessEnvOK.unmountOk sessDemo.TargetMount then [] else ["unmount target"]) ++
        (if sessEnvOK.removeAllOk sessDemo.TempDir then [] else ["remove temp dir"])) :=
  c5_cleanup_order sessEnvOK sessDemo (by decide) (by decide) (by decide)

/-! ## Mount lifecycle release (C3) -/

/-- An oracle where `/mnt/m` is mounted and every unmount attempt fails. -/
def mountEnvBusy : MountEnv :=
  { mountsInfo :=
      some [{ Device := "/dev/sdb1", Mountpoint := "/mnt/m", Filesystem := "vfat",
              Options := "rw" }],
    sysUnmountOk := fun _ => false, umountOk := fun _ => false,
    umountLazyOk := fun _ => false, removeAllOk := fun _ => true }

/-- C3 counterexample: when the mountpoint is mounted and the unmount attempt
(syscall, `umount`, then lazy `umount -l`) reports an error,
`CleanupMountpoint` returns that error WITHOUT attempting the directory
removal — the removal is not attempted when unmount fails. -/
theorem c3_counterexample :
    (CleanupMountpoint mountEnvBusy "/mnt/m").1.isSome = true ∧
    MountEvent.sysUnmount "/mnt/m" ∈ (CleanupMountpoint mountEnvBusy "/mnt/m").2 ∧
    MountEvent.removeAll "/mnt/m" ∉ (CleanupMountpoint mountEnvBusy "/mnt/m").2 := by
  refine ⟨rfl, by decide, by decide⟩

/-- C3 (amended): `CleanupMountpoint` attempts an unmount only when the
mount-status check reports the path mounted; when that unmount attempt
reports an error, the error is returned immediately and the directory removal
is NOT attempted; otherwise (not mounted, or unmount succeeded) the removal
is attempted, after any unmount attempts. -/
theorem c3_cleanup_mountpoint (env : MountEnv) (mp : String) (mi : Bool × List String)
    (hmi : IsMounted env mp = some mi) :
    (mi.1 = false →
      CleanupMountpoint env mp =
        ((if env.removeAllOk mp then none else some ("failed to remove mountpoint " ++ mp)),
          [MountEvent.removeAll mp])) ∧
    (mi.1 = true → (Unmount env mp).1 = none →
      CleanupMountpoint env mp =
        ((if env.removeAllOk mp then none else some ("failed to remove mountpoint " ++ mp)),
          (Unmount env mp).2 ++ [MountEvent.removeAll mp])) ∧
    (∀ e, mi.1 = true → (Unmount env mp).1 = some e →
      CleanupMountpoint env mp = (some ("failed to unmount: " ++ e), (Unmount env mp).2) ∧
      MountEvent.removeAll mp ∉ (Unmount env mp).2) := by
  refine ⟨?_, ?_, ?_⟩
  · intro hfalse
    simp [CleanupMountpoint, hmi, hfalse]
    by_cases hro : env.removeAllOk mp = true <;> simp [hro]
  · intro htrue hnone
    simp [CleanupMountpoint, hmi, htrue, hnone]
    by_cases hro : env.removeAllOk mp = true <;> simp [hro]
  · intro e htrue hsome
    constructor
    · simp [CleanupMountpoint, hmi, htrue, hsome]
    · by_cases hb1 : env.sysUnmountOk mp = true <;>
        by_cases hb2 : env.umountOk mp = true <;>
          by_cases hb3 : env.umountLazyOk mp = true <;>
            simp [Unmount, hb1, hb2, hb3]

/-- Witness for C3 at a concrete mounted-and-busy oracle. -/
theorem c3_cleanup_mountpoint_witness :
    ((true, ["/mnt/m"]) : Bool × List String).1 = true ∧
    (Unmount mountEnvBusy "/mnt/m").1 = some "failed to unmount /mnt/m" ∧
    CleanupMountpoint mountEnvBusy "/mnt/m" =
      (some ("failed to unmount: " ++ "failed to unmount /mnt/m"),
        (Unmount mountEnvBusy "/mnt/m").2) ∧
    MountEvent.removeAll "/mnt/m" ∉ (Unmount mountEnvBusy "/mnt/m").2 := by
  have h := (c3_cleanup_mountpoint mountEnvBusy "/mnt/m" (true, ["/mnt/m"]) (by decide)).2.2
    "failed to unmount /mnt/m" rfl (by decide)
  exact ⟨rfl, by decide, h.1, h.2⟩

/-! ## Copy-engine progress reporting (C6) -/

/-- Oracle for a healthy copy of a 1 KB source file. -/
def envDirect1K : Env :=
  { openOk := fun _ => true, createOk := fun _ => true, mkdirOk := fun _ => true,
    reads := fun _ => stdReads 1024, writes := fun _ => [], splitOk := fun _ => true }

/-- Oracle for a healthy copy of a 6 MB source file. -/
def envChunk6M : Env :=
  { openOk := fun _ => true, createOk := fun _ => true, mkdirOk := fun _ => true,
    reads := fun _ => stdReads 6000000, writes := fun _ => [], splitOk := fun _ => true }

/-- C6: through the copy engine (`copyFile`), a 1 KB file — below the 5 MiB
threshold, direct path — triggers exactly one progress call, carrying the
running byte total advanced by the full file size, and the copy succeeds with
exactly that total advance; a 6 MB file — at or above the threshold, chunked
path — triggers more than one progress call. -/
theorem c6_progress_calls (st : CopyStats) :
    (1024 : Int) < LargeFileThreshold ∧
    copyFile envDirect1K "src/f.txt" "dst/f.txt" 1024 st =
      ({ st with CopiedBytes := st.CopiedBytes + 1024 }, none,
        [(st.CopiedBytes + 1024, st.TotalBytes, st.CurrentFile)]) ∧
    LargeFileThreshold ≤ (6000000 : Int) ∧
    1 < (copyFile envChunk6M "src/big.bin" "dst/big.bin" 6000000 st).2.2.length := by
  refine ⟨by norm_num [LargeFileThreshold], ?_, by norm_num [LargeFileThreshold], ?_⟩
  · simp [copyFile, envDirect1K, LargeFileThreshold, ioCopyErr, stdReads, ChunkSize,
      ReadStep.bytes, ReadStep.isFail, ReadStep.isEof]
  · have h : (copyFile envChunk6M "src/big.bin" "dst/big.bin" 6000000 st).2.2.length = 6 := by
      simp [copyFile, envChunk6M, LargeFileThreshold, stdReads, ChunkSize, chunkLoop,
        ReadStep.bytes, ReadStep.isFail, ReadStep.isEof]
    omega

/-! ## Tree-copy failure policy (C7): infrastructure -/

/-- The error `chunkLoop` returns, computed without the stats (the loop's
control flow never depends on them). -/
def chunkErr (reads : List ReadStep) (writes : List Bool) : Option String :=
  match reads with
  | [] => none
  | step :: rest =>
      if step.bytes = 0 then none
      else if step.isFail then some "read error"
      else if writes.headD true = false then some "write error"
      else if step.isEof then none
      else chunkErr rest writes.tail

theorem chunkLoop_err (reads : List ReadStep) :
    ∀ (writes : List Bool) (st : CopyStats),
      (chunkLoop reads writes st).2.1 = chunkErr reads writes := by
  induction reads with
  | nil => intro writes st; rfl
  | cons step rest ih =>
      intro writes st
      simp only [chunkLoop, chunkErr]
      by_cases h0 : step.bytes = 0
      · simp [h0]
      · by_cases hf : step.isFail = true
        · simp [h0, hf]
        · by_cases hw : writes.head?.getD true = false
          · simp [h0, hf, hw]
          · by_cases he : step.isEof = true
            · simp [h0, hf, hw, he]
            · simp [h0, hf, hw, he, ih]

theorem chunkLoop_preserve (reads : List ReadStep) :
    ∀ (writes : List Bool) (st : CopyStats),
      (chunkLoop reads writes st).1.Failed = st.Failed ∧
      (chunkLoop reads writes st).1.CopiedFiles = st.CopiedFiles := by
  induction reads with
  | nil => intro writes st; exact ⟨rfl, rfl⟩
  | cons step rest ih =>
      intro writes st
      simp only [chunkLoop]
      by_cases h0 : step.bytes = 0
      · simp [h0]
      · by_cases hf : step.isFail = true
        · simp [h0, hf]
        · by_cases hw : writes.head?.getD true = false
          · simp [h0, hf, hw]
          · by_cases he : step.isEof = true
            · simp [h0, hf, hw, he]
            · simpa [h0, hf, hw, he] using ih writes.tail _

/-- The error `copyFile` returns, computed without the stats. -/
def copyFileErr (env : Env) (src dst : String) (size : Int) : Option String :=
  if env.openOk src = false then some "open error"
  else if env.createOk dst = false then some "create error"
  else if size < LargeFileThreshold then
    if ioCopyErr (env.reads src) (env.writes dst) then some "io copy error" else none
  else chunkErr (env.reads src) (env.writes dst)

theorem copyFile_err (env : Env) (src dst : String) (size : Int) (st : CopyStats) :
    (copyFile env src dst size st).2.1 = copyFileErr env src dst size := by
  simp only [copyFile, copyFileErr]
  by_cases ho : env.openOk src = false
  · simp [ho]
  · by_cases hc : env.createOk dst = false
    · simp [ho, hc]
    · by_cases hs : size < LargeFileThreshold
      · by_cases hio : ioCopyErr (env.reads src) (env.writes dst) <;> simp [ho, hc, hs, hio]
      · simp [ho, hc, hs, chunkLoop_err]

theorem copyFile_preserve (env : Env) (src dst : String) (size : Int) (st : CopyStats) :
    (copyFile env src dst size st).1.Failed = st.Failed ∧
    (copyFile env src dst size st).1.CopiedFiles = st.CopiedFiles := by
  simp only [copyFile]
  by_cases ho : env.openOk src = false
  · simp [ho]
  · by_cases hc : env.createOk dst = false
    · simp [ho, hc]
    · by_cases hs : size < LargeFileThreshold
      · by_cases hio : ioCopyErr (env.reads src) (env.writes dst) <;> simp [ho, hc, hs, hio]
      · simpa [ho, hc, hs] using chunkLoop_preserve (env.reads src) (env.writes dst) st

mutual

/-- The relative paths the `copyFiles` walk appends to `Failed`: inaccessible
entries and regular files whose copy fails, in walk order. -/
def failedOf (env : Env) (srcMount dstMount : String) (ps : List String) : Node → List String
  | Node.file sz =>
      if (copyFileErr env (pathJoin srcMount (relPath ps))
            (pathJoin dstMount (relPath ps)) sz).isSome
      then [relPath ps] else []
  | Node.other => []
  | Node.dirFail => [relPath ps]
  | Node.dir es => failedOfEntries env srcMount dstMount ps es

/-- `failedOf` over directory entries. -/
def failedOfEntries (env : Env) (srcMount dstMount : String) (ps : List String) :
    Entries → List String
  | Entries.nil => []
  | Entries.skip name rest =>
      relPath (ps ++ [name]) :: failedOfEntries env srcMount dstMount ps rest
  | Entries.cons name child rest =>
      failedOf env srcMount dstMount (ps ++ [name]) child ++
        failedOfEntries env srcMount dstMount ps rest

end

mutual

/-- The number of regular files the `copyFiles` walk copies successfully. -/
def okCount (env : Env) (srcMount dstMount : String) (ps : List String) : Node → Int
  | Node.file sz =>
      if (copyFileErr env (pathJoin srcMount (relPath ps))
            (pathJoin dstMount (relPath ps)) sz).isSome
      then 0 else 1
  | Node.other => 0
  | Node.dirFail => 0
  | Node.dir es => okCountEntries env srcMount dstMount ps es

/-- `okCount` over directory entries. -/
def okCountEntries (env : Env) (srcMount dstMount : String) (ps : List String) :
    Entries → Int
  | Entries.nil => 0
  | Entries.skip _ rest => okCountEntries env srcMount dstMount ps rest
  | Entries.cons name child rest =>
      okCount env srcMount dstMount (ps ++ [name]) child +
        okCountEntries env srcMount dstMount ps rest

end

/-- `failedOf` lifted to a walk root (a root whose `lstat` fails is itself
recorded as `"."`). -/
def rootFailedOf (env : Env) (srcMount dstMount : String) : Option Node → List String
  | none => [relPath []]
  | some n => failedOf env srcMount dstMount [] n

/-- `okCount` lifted to a walk root. -/
def rootOkCount (env : Env) (srcMount dstMount : String) : Option Node → Int
  | none => 0
  | some n => okCount env srcMount dstMount [] n

mutual

/-- When no destination-directory creation fails, the copy walk over a node
returns no error, appends exactly the predicted failure list, and advances
`CopiedFiles` by the number of successful copies. -/
theorem walkNode_copyFiles (env : Env) (srcMount dstMount : String)
    (hmk : ∀ d, env.mkdirOk d = true) (n : Node) :
    ∀ (ps : List String) (st : CopyStats) (tr : List FSEvent),
      ∃ st2 tr2,
        walkNode (copyFilesF env srcMount dstMount) (st, tr) ps n = ((st2, tr2), none) ∧
        st2.Failed = st.Failed ++ failedOf env srcMount dstMount ps n ∧
        st2.CopiedFiles = st.CopiedFiles + okCount env srcMount dstMount ps n := by
  cases n with
  | file sz =>
      intro ps st tr
      have hpre := copyFile_preserve env (pathJoin srcMount (relPath ps))
        (pathJoin dstMount (relPath ps)) sz { st with CurrentFile := relPath ps }
      have herr := copyFile_err env (pathJoin srcMount (relPath ps))
        (pathJoin dstMount (relPath ps)) sz { st with CurrentFile := relPath ps }
      rcases hcf : copyFile env (pathJoin srcMount (relPath ps))
          (pathJoin dstMount (relPath ps)) sz { st with CurrentFile := relPath ps }
        with ⟨stc, oe, calls⟩
      rw [hcf] at herr hpre
      simp only at herr hpre
      simp only [walkNode, copyFilesF, hcf]
      rcases hc : copyFileErr env (pathJoin srcMount (relPath ps))
          (pathJoin dstMount (relPath ps)) sz with _ | e
      · rw [hc] at herr
        subst herr
        refine ⟨_, _, rfl, ?_, ?_⟩
        · simp [failedOf, hc, hpre.1]
        · simp [okCount, hc, hpre.2]
      · rw [hc] at herr
        subst herr
        refine ⟨_, _, rfl, ?_, ?_⟩
        · simp [failedOf, hc, hpre.1]
        · simp [okCount, hc, hpre.2]
  | other =>
      intro ps st tr
      exact ⟨st, tr, by simp [walkNode, copyFilesF], by simp [failedOf],
        by simp [okCount]⟩
  | dirFail =>
      intro ps st tr
      refine ⟨{ st with Failed := st.Failed ++ [relPath ps] }, tr, ?_, ?_, ?_⟩
      · simp [walkNode, copyFilesF]
      · simp [failedOf]
      · simp [okCount]
  | dir es =>
      intro ps st tr
      obtain ⟨st2, tr2, heq, hF, hC⟩ := walkEntries_copyFiles env srcMount dstMount hmk es ps st
        (tr ++ [FSEvent.mkdir (pathJoin dstMount (relPath ps))])
      refine ⟨st2, tr2, ?_, by simpa [failedOf] using hF, by simpa [okCount] using hC⟩
      simp only [walkNode, copyFilesF]
      simp [hmk (pathJoin dstMount (relPath ps)), heq]

/-- `walkNode_copyFiles` over directory entries. -/
theorem walkEntries_copyFiles (env : Env) (srcMount dstMount : String)
    (hmk : ∀ d, env.mkdirOk d = true) (es : Entries) :
    ∀ (ps : List String) (st : CopyStats) (tr : List FSEvent),
      ∃ st2 tr2,
        walkEntries (copyFilesF env srcMount dstMount) (st, tr) ps es = ((st2, tr2), none) ∧
        st2.Failed = st.Failed ++ failedOfEntries env srcMount dstMount ps es ∧
        st2.CopiedFiles = st.CopiedFiles + okCountEntries env srcMount dstMount ps es := by
  cases es with
  | nil =>
      intro ps st tr
      exact ⟨st, tr, by simp [walkEntries], by simp [failedOfEntries],
        by simp [okCountEntries]⟩
  | skip name rest =>
      intro ps st tr
      obtain ⟨st2, tr2, hreq, hrF, hrC⟩ := walkEntries_copyFiles env srcMount dstMount hmk rest
        ps { st with Failed := st.Failed ++ [relPath (ps ++ [name])] } tr
      refine ⟨st2, tr2, ?_, ?_, ?_⟩
      · simp only [walkEntries, copyFilesF]
        simp [hreq]
      · rw [hrF]
        simp [failedOfEntries]
      · rw [hrC]
        simp [okCountEntries]
  | cons name child rest =>
      intro ps st tr
      obtain ⟨stc, trc, hceq, hcF, hcC⟩ := walkNode_copyFiles env srcMount dstMount hmk child
        (ps ++ [name]) st tr
      obtain ⟨st2, tr2, hreq, hrF, hrC⟩ := walkEntries_copyFiles env srcMount dstMount hmk rest
        ps stc trc
      refine ⟨st2, tr2, ?_, ?_, ?_⟩
      · simp only [walkEntries, hceq]
        exact hreq
      · rw [hrF, hcF]
        simp [failedOfEntries]
      · rw [hrC, hcC]
        simp [okCountEntries]
        ring

end

mutual

/-- Any error the copy walk returns is a directory-creation error: it names a
destination directory whose `MkdirAll` failed, and the trace ends at that
`mkdir` attempt — nothing is done after it. -/
theorem walkNode_copyFiles_mkdirErr (env : Env) (srcMount dstMount : String) (n : Node) :
    ∀ (ps : List String) (st : CopyStats) (tr : List FSEvent)
      (st2 : CopyStats) (tr2 : List FSEvent) (e : String),
      walkNode (copyFilesF env srcMount dstMount) (st, tr) ps n = ((st2, tr2), some e) →
      ∃ d, env.mkdirOk d = false ∧ e = mkdirMsg d ∧
        tr2.getLast? = some (FSEvent.mkdir d) := by
  cases n with
  | file sz =>
      intro ps st tr st2 tr2 e h
      have herr := copyFile_err env (pathJoin srcMount (relPath ps))
        (pathJoin dstMount (relPath ps)) sz { st with CurrentFile := relPath ps }
      simp only [walkNode, copyFilesF] at h
      rcases hc : copyFileErr env (pathJoin srcMount (relPath ps))
          (pathJoin dstMount (relPath ps)) sz with _ | e2 <;>
        · rw [hc] at herr
          simp [herr] at h
  | other =>
      intro ps st tr st2 tr2 e h
      simp [walkNode, copyFilesF] at h
  | dirFail =>
      intro ps st tr st2 tr2 e h
      simp [walkNode, copyFilesF] at h
  | dir es =>
      intro ps st tr st2 tr2 e h
      simp only [walkNode, copyFilesF] at h
      by_cases hm : env.mkdirOk (pathJoin dstMount (relPath ps)) = true
      · simp [hm] at h
        exact walkEntries_copyFiles_mkdirErr env srcMount dstMount es ps st
          (tr ++ [FSEvent.mkdir (pathJoin dstMount (relPath ps))]) st2 tr2 e h
      · simp [hm] at h
        refine ⟨pathJoin dstMount (relPath ps), by simpa using hm, h.2.symm, ?_⟩
        rw [← h.1.2]
        simp

/-- `walkNode_copyFiles_mkdirErr` over directory entries. -/
theorem walkEntries_copyFiles_mkdirErr (env : Env) (srcMount dstMount : String) (es : Entries) :
    ∀ (ps : List String) (st : CopyStats) (tr : List FSEvent)
      (st2 : CopyStats) (tr2 : List FSEvent) (e : String),
      walkEntries (copyFilesF env srcMount dstMount) (st, tr) ps es = ((st2, tr2), some e) →
      ∃ d, env.mkdirOk d = false ∧ e = mkdirMsg d ∧
        tr2.getLast? = some (FSEvent.mkdir d) := by
  cases es with
  | nil =>
      intro ps st tr st2 tr2 e h
      simp [walkEntries] at h
  | skip name rest =>
      intro ps st tr st2 tr2 e h
      simp only [walkEntries, copyFilesF] at h
      simp at h
      exact walkEntries_copyFiles_mkdirErr env srcMount dstMount rest ps
        { st with Failed := st.Failed ++ [relPath (ps ++ [name])] } tr st2 tr2 e h
  | cons name child rest =>
      intro ps st tr st2 tr2 e h
      simp only [walkEntries] at h
      rcases hwc : walkNode (copyFilesF env srcMount dstMount) (st, tr) (ps ++ [name]) child
        with ⟨⟨stc, trc⟩, oe⟩
      rw [hwc] at h
      cases oe with
      | none =>
          simp at h
          exact walkEntries_copyFiles_mkdirErr env srcMount dstMount rest ps stc trc
            st2 tr2 e h
      | some e0 =>
          simp at h
          obtain ⟨⟨hst, htr⟩, he⟩ := h
          obtain ⟨d, hd1, hd2, hd3⟩ := walkNode_copyFiles_mkdirErr env srcMount dstMount child
            (ps ++ [name]) st tr stc trc e0 hwc
          exact ⟨d, hd1, he ▸ hd2, htr ▸ hd3⟩

end

/-! ## The C7 claim and its concrete demonstrations -/

/-- Oracle where creating the destination directory `dst/sub` fails and
everything else succeeds. -/
def envMkdirFail : Env :=
  { openOk := fun _ => true, createOk := fun _ => true,
    mkdirOk := fun d => d ≠ "dst/sub", reads := fun _ => [ReadStep.ok 3],
    writes := fun _ => [], splitOk := fun _ => true }

/-- Oracle where every OS call succeeds and each source file reads as one
3-byte chunk. -/
def envTreeOK : Env :=
  { openOk := fun _ => true, createOk := fun _ => true, mkdirOk := fun _ => true,
    reads := fun _ => [ReadStep.ok 3], writes := fun _ => [], splitOk := fun _ => true }

/-- Oracle where opening the source file `src/a.txt` fails and everything else
succeeds. -/
def envOpenFailA : Env :=
  { openOk := fun p => p ≠ "src/a.txt", createOk := fun _ => true,
    mkdirOk := fun _ => true, reads := fun _ => [ReadStep.ok 3],
    writes := fun _ => [], splitOk := fun _ => true }

/-- A directory containing a subdirectory followed by a regular file. -/
def treeAbort : Node :=
  Node.dir (Entries.cons "sub" (Node.dir Entries.nil)
    (Entries.cons "z.txt" (Node.file 3) Entries.nil))

/-- A directory containing the regular files `a.txt` and `b.txt`. -/
def treeTwoFiles : Node :=
  Node.dir (Entries.cons "a.txt" (Node.file 3)
    (Entries.cons "b.txt" (Node.file 3) Entries.nil))

/-- C7: in the tree-copy pass (`copyFiles`),
(1) when no destination-directory creation fails, the pass returns no error,
its `Failed` list collects exactly the inaccessible entries and the regular
files whose copy failed, and `CopiedFiles` counts the rest — so a failed file
copy is recorded and the walk continues;
(2) any error the pass returns is a directory-creation error, named after the
failing destination directory, and the event trace ends at that very `mkdir`
attempt — the walk did nothing further;
(3) concretely: with `dst/sub` failing to be created, the pass aborts with
that error, having copied nothing — while the same tree under an all-good
oracle copies its one file; a tree whose `src/a.txt` cannot be opened still
ends with no error, `Failed = ["a.txt"]`, and `b.txt` copied. -/
theorem c7_tree_copy_failure_policy :
    (∀ (env : Env) (srcMount dstMount : String) (st : CopyStats) (root : Option Node),
      (∀ d, env.mkdirOk d = true) →
      ∃ st2 tr2,
        copyFiles env srcMount dstMount st root = ((st2, tr2), none) ∧
        st2.Failed = st.Failed ++ rootFailedOf env srcMount dstMount root ∧
        st2.CopiedFiles = st.CopiedFiles + rootOkCount env srcMount dstMount root) ∧
    (∀ (env : Env) (srcMount dstMount : String) (st st2 : CopyStats) (root : Option Node)
      (tr2 : List FSEvent) (e : String),
      copyFiles env srcMount dstMount st root = ((st2, tr2), some e) →
      ∃ d, env.mkdirOk d = false ∧ e = mkdirMsg d ∧
        tr2.getLast? = some (FSEvent.mkdir d)) ∧
    copyFiles envMkdirFail "src" "dst" CopyStats.init (some treeAbort) =
      ((CopyStats.init, [FSEvent.mkdir "dst", FSEvent.mkdir "dst/sub"]),
        some (mkdirMsg "dst/sub")) ∧
    (copyFiles envTreeOK "src" "dst" CopyStats.init (some treeAbort)).1.1.CopiedFiles = 1 ∧
    (copyFiles envOpenFailA "src" "dst" CopyStats.init (some treeTwoFiles)).2 = none ∧
    (copyFiles envOpenFailA "src" "dst" CopyStats.init (some treeTwoFiles)).1.1.Failed
      = ["a.txt"] ∧
    (copyFiles envOpenFailA "src" "dst" CopyStats.init (some treeTwoFiles)).1.1.CopiedFiles
      = 1 := by
  refine ⟨?_, ?_, by rfl, by rfl, by rfl, by rfl, by rfl⟩
  · intro env srcMount dstMount st root hmk
    cases root with
    | none =>
        refine ⟨{ st with Failed := st.Failed ++ [relPath []] }, [], ?_, ?_, ?_⟩
        · simp [copyFiles, filepathWalk, copyFilesF]
        · simp [rootFailedOf]
        · simp [rootOkCount]
    | some n =>
        obtain ⟨st2, tr2, heq, hF, hC⟩ := walkNode_copyFiles env srcMount dstMount hmk n [] st []
        exact ⟨st2, tr2, heq, hF, hC⟩
  · intro env srcMount dstMount st st2 root tr2 e h
    cases root with
    | none => simp [copyFiles, filepathWalk, copyFilesF] at h
    | some n => exact walkNode_copyFiles_mkdirErr env srcMount dstMount n [] st [] st2 tr2 e h

/-- Witness for C7's universally quantified part, at a concrete tree and
oracle. -/
theorem c7_tree_copy_failure_policy_witness :
    (∀ d, envTreeOK.mkdirOk d = true) ∧
    (∃ st2 tr2,
      copyFiles envTreeOK "src" "dst" CopyStats.init (some treeAbort) = ((st2, tr2), none) ∧
      st2.Failed = CopyStats.init.Failed ++ rootFailedOf envTreeOK "src" "dst" (some treeAbort) ∧
      st2.CopiedFiles =
        CopyStats.init.CopiedFiles + rootOkCount envTreeOK "src" "dst" (some treeAbort)) :=
  ⟨fun _ => rfl, c7_tree_copy_failure_policy.1 envTreeOK "src" "dst" CopyStats.init
    (some treeAbort) (fun _ => rfl)⟩

/-! ## The archive-split pipeline rejection (C4) -/

/-- A directory containing one oversized file that is not a WIM. -/
def treeBigExe : Node :=
  Node.dir (Entries.cons "big.exe" (Node.file 4294967296) Entries.nil)

/-- C4: if the source tree contains an accessible regular file strictly larger
than `FAT32MaxFileSize` whose name is not a `.wim` (case-insensitive), then
`CopyWindowsISOWithWIMSplit` returns a `notWIM` error carrying such a file's
relative path and byte size, and its event trace is empty — no file was
copied (and no directory created, no split run) before the failure. -/
theorem c4_pipeline_rejects_oversized_nonwim (env : Env) (srcMount dstMount : String)
    (root : Option Node) (p : String) (sz : Int)
    (hmem : (p, sz) ∈ rootRegFiles root) (hbig : FAT32MaxFileSize < sz)
    (hwim : IsWIMFile p = false) :
    ∃ q t, (q, t) ∈ rootRegFiles root ∧ FAT32MaxFileSize < t ∧ IsWIMFile q = false ∧
      CopyWindowsISOWithWIMSplit env srcMount dstMount root =
        (some (PipeErr.notWIM q t), []) := by
  have hov : (p, sz) ∈ oversizedOf (rootRegFiles root) := by
    simp [oversizedOf, List.mem_filter, hmem, hbig]
  have hfind : ((oversizedOf (rootRegFiles root)).find?
      (fun lf => !IsWIMFile lf.1)).isSome := by
    rw [List.find?_isSome]
    exact ⟨(p, sz), hov, by simp [hwim]⟩
  obtain ⟨lf0, hlf0⟩ := Option.isSome_iff_exists.mp hfind
  have hlfmem := List.mem_of_find?_eq_some hlf0
  have hlfpred := List.find?_some hlf0
  have hlfov : lf0 ∈ rootRegFiles root ∧ FAT32MaxFileSize < lf0.2 := by
    have := hlfmem
    simp [oversizedOf, List.mem_filter] at this
    exact ⟨this.1, this.2⟩
  refine ⟨lf0.1, lf0.2, hlfov.1, hlfov.2, by simpa using hlfpred, ?_⟩
  simp [CopyWindowsISOWithWIMSplit, FindLargeFiles_spec, hlf0]

/-- Witness for C4 at a concrete tree with an oversized `.exe`. -/
theorem c4_pipeline_rejects_oversized_nonwim_witness :
    ("big.exe", (4294967296 : Int)) ∈ rootRegFiles (some treeBigExe) ∧
    FAT32MaxFileSize < (4294967296 : Int) ∧
    IsWIMFile "big.exe" = false ∧
    (∃ q t, (q, t) ∈ rootRegFiles (some treeBigExe) ∧ FAT32MaxFileSize < t ∧
      IsWIMFile q = false ∧
      CopyWindowsISOWithWIMSplit envTreeOK "src" "dst" (some treeBigExe) =
        (some (PipeErr.notWIM q t), [])) :=
  ⟨by simp [rootRegFiles, treeBigExe, regFiles, regFilesEntries, relPath]; rfl,
    by norm_num [FAT32MaxFileSize], by decide,
    c4_pipeline_rejects_oversized_nonwim envTreeOK "src" "dst" (some treeBigExe)
      "big.exe" 4294967296
      (by simp [rootRegFiles, treeBigExe, regFiles, regFilesEntries, relPath]; rfl)
      (by norm_num [FAT32MaxFileSize]) (by decide)⟩

end WoeUSB
